import Mathlib

/-!
# SNES controller poller (`snes-controller/snes.c`)

A shallow embedding of the Pico program that polls a SNES controller over
three GPIO lines and drives a small text "game" from the decoded buttons.

* The board (GPIO block, microsecond timer, the global `controller` array and
  a chronological log of every SDK call) is an explicit state, `Board`.
* The data line and the timer are inputs of the program: the board carries
  the stream of levels that successive `gpio_get` calls observe and the
  stream of values that successive `time_us_32` calls return.
* The three `float` operations the program performs on `playerx`/`playery`
  are a parameter, `FloatOps`, so that statements hold for any arithmetic;
  `binary32` is the IEEE 754 arithmetic of the target, on exact integers.
* Unsigned 32-bit arithmetic is arithmetic on `Nat` modulo `2 ^ 32`.
-/

namespace Snes

/-! ## Constants -/

/-- `const uint LATCH = 15;` -/
def LATCH : Nat := 15
/-- `const uint CLOCK = 14;` -/
def CLOCK : Nat := 14
/-- `const uint SDATA = 16;` -/
def SDATA : Nat := 16

/-- Direction value `GPIO_OUT` of the SDK (`true` stands for output). -/
def GPIO_OUT : Bool := true
/-- Direction value `GPIO_IN` of the SDK (`false` stands for input). -/
def GPIO_IN : Bool := false

/-- Number of values of a 32-bit `uint`. -/
def U32 : Nat := 4294967296

/-! ## Board state and SDK primitives -/

/-- One call into the SDK, as recorded in the log of the board. -/
inductive Event where
  | gpioInit (pin : Nat)
  | gpioSetDir (pin : Nat) (out : Bool)
  | gpioPut (pin : Nat) (value : Bool)
  | gpioGet (pin : Nat) (level : Bool)
  | sleepUs (us : Nat)
  | busyWaitUs (us : Nat)
  | timeUs32 (t : Nat)
  | stdioInitAll
  | printf (fmt : List Char) (args : List Nat)
  deriving DecidableEq

/-- State of the board as far as the program can observe or change it. -/
structure Board where
  /-- Pins selected for software control by `gpio_init`. -/
  sio : Nat → Bool
  /-- Direction of each pin, `true` for output. -/
  dir : Nat → Bool
  /-- Level written to the output register of each pin. -/
  out : Nat → Bool
  /-- Raw level that the `n`-th call of `gpio_get` observes (input). -/
  levels : Nat → Bool
  /-- Number of `gpio_get` calls made so far. -/
  reads : Nat
  /-- Value of the free-running timer at the `n`-th call of `time_us_32` (input). -/
  timer : Nat → Nat
  /-- Number of `time_us_32` calls made so far. -/
  timeReads : Nat
  /-- The global `uint controller[16]`; only indices `0..15` belong to the array. -/
  controller : Nat → Nat
  /-- Every SDK call made so far, oldest first. -/
  trace : List Event

/-- Append one event to the log. -/
def Board.emit (b : Board) (e : Event) : Board :=
  { b with trace := b.trace ++ [e] }

/-- SDK `gpio_init(pin)`: the pin becomes a software-controlled input whose
output register holds 0. -/
def gpio_init (pin : Nat) (b : Board) : Board :=
  { b with
    sio := Function.update b.sio pin true
    dir := Function.update b.dir pin GPIO_IN
    out := Function.update b.out pin false
    trace := b.trace ++ [Event.gpioInit pin] }

/-- SDK `gpio_set_dir(pin, out)`. -/
def gpio_set_dir (pin : Nat) (o : Bool) (b : Board) : Board :=
  { b with
    dir := Function.update b.dir pin o
    trace := b.trace ++ [Event.gpioSetDir pin o] }

/-- SDK `gpio_put(pin, value)`. -/
def gpio_put (pin : Nat) (v : Bool) (b : Board) : Board :=
  { b with
    out := Function.update b.out pin v
    trace := b.trace ++ [Event.gpioPut pin v] }

/-- SDK `gpio_get(pin)`: returns the level the line presents at this sample. -/
def gpio_get (pin : Nat) (b : Board) : Bool × Board :=
  (b.levels b.reads,
   { b with
     reads := b.reads + 1
     trace := b.trace ++ [Event.gpioGet pin (b.levels b.reads)] })

/-- SDK `sleep_us(us)`. -/
def sleep_us (us : Nat) (b : Board) : Board :=
  b.emit (Event.sleepUs us)

/-- SDK `busy_wait_us(us)`. -/
def busy_wait_us (us : Nat) (b : Board) : Board :=
  b.emit (Event.busyWaitUs us)

/-- SDK `time_us_32()`: the low 32 bits of the microsecond timer. -/
def time_us_32 (b : Board) : Nat × Board :=
  (b.timer b.timeReads % U32,
   { b with
     timeReads := b.timeReads + 1
     trace := b.trace ++ [Event.timeUs32 (b.timer b.timeReads % U32)] })

/-- C logical negation of a `bool`, stored into a `uint`. -/
def lnot (level : Bool) : Nat := if level then 0 else 1

/-! ## Bus driver -/

/-- `snes_init` -/
def snes_init (b : Board) : Board :=
  let b := gpio_init LATCH b
  let b := gpio_init CLOCK b
  let b := gpio_init SDATA b
  let b := gpio_set_dir LATCH GPIO_OUT b
  let b := gpio_set_dir CLOCK GPIO_OUT b
  let b := gpio_set_dir SDATA GPIO_IN b
  gpio_put CLOCK true b

/-- Body of the `for` loop of `snes_fetch`, for one value of `btn`. -/
def snes_fetch_bit (b : Board) (btn : Nat) : Board :=
  let b := busy_wait_us 3 b
  let (level, b) := gpio_get SDATA b
  let b := { b with controller := Function.update b.controller btn (lnot level) }
  let b := busy_wait_us 3 b
  let b := gpio_put CLOCK true b
  let b := busy_wait_us 6 b
  gpio_put CLOCK false b

/-- `snes_fetch` -/
def snes_fetch (b : Board) : Board :=
  let b := gpio_put LATCH true b
  let b := sleep_us 12 b
  let b := gpio_put LATCH false b
  let b := sleep_us 6 b
  (List.range 16).foldl snes_fetch_bit b

/-! ## Reference consumer: the "game" -/

/-- The three operations the program performs on its `float` globals. The
conversion `(int)v` yields a C `int`, so its result lies in the `int` range. -/
structure FloatOps (F : Type) where
  /-- Result of `v -= 0.1`. -/
  subTenth : F → F
  /-- Result of `v += 0.1`. -/
  addTenth : F → F
  /-- Result of `(int)v`. -/
  toInt : F → Int
  toInt_lo : ∀ v, -2147483648 ≤ toInt v
  toInt_hi : ∀ v, toInt v < 2147483648

/-- Conversion of an `int` to `uint`, as in the comparison `(int)playerx == x`. -/
def intToUint (z : Int) : Nat := (z % 4294967296).toNat

/-- The newline character. -/
def NL : Char := Char.ofNat 10
/-- The terminating character of a C string. -/
def NUL : Char := Char.ofNat 0

/-- `draw_cell`, with the two globals it reads passed explicitly. -/
def draw_cell {F : Type} (fo : FloatOps F) (playerx playery : F) (x y : Nat) : Char :=
  if y = 0 ∨ y = 19 ∨ x = 0 ∨ x = 39 then '*'
  else if intToUint (fo.toInt playerx) = x ∧ intToUint (fo.toInt playery) = y then '#'
  else ' '

/-- The local array `char cells[20 * 42]` together with the write pointer `ptr`,
kept as an offset from the start of the array. -/
structure CellBuf where
  cells : Nat → Char
  ptr : Nat

/-- Capacity of `cells`. -/
def CELLS_SIZE : Nat := 20 * 42

/-- `*ptr++ = c;` -/
def CellBuf.push (buf : CellBuf) (c : Char) : CellBuf :=
  { cells := Function.update buf.cells buf.ptr c, ptr := buf.ptr + 1 }

/-- One iteration of the outer drawing loop of `game_iter` (row `y`). -/
def draw_row {F : Type} (fo : FloatOps F) (playerx playery : F) (buf : CellBuf) (y : Nat) :
    CellBuf :=
  ((List.range 40).foldl (fun acc x => acc.push (draw_cell fo playerx playery x y)) buf).push NL

/-- The drawing loops of `game_iter` and the final `*ptr++ = 0`, started on
an array with content `junk`. -/
def draw_grid {F : Type} (fo : FloatOps F) (playerx playery : F) (junk : Nat → Char) : CellBuf :=
  ((List.range 20).foldl (draw_row fo playerx playery) { cells := junk, ptr := 0 }).push NUL

/-- The C string stored at the start of an array of `bound` characters. -/
def cstr (mem : Nat → Char) (bound : Nat) : List Char :=
  ((List.range bound).map mem).takeWhile (fun c => c ≠ NUL)

/-- State of the whole program: the board, the two `float` globals, and the
indeterminate content the local array `cells` has when `game_iter` starts. -/
structure Machine (F : Type) where
  board : Board
  playerx : F
  playery : F
  cellsJunk : Nat → Char

/-- SDK `printf(fmt, args...)`. -/
def printf (fmt : List Char) (args : List Nat) (b : Board) : Board :=
  b.emit (Event.printf fmt args)

/-- First format string of `game_iter`: the escape sequence clearing the screen. -/
def FMT_CLEAR : List Char := [Char.ofNat 27, '[', '2', 'J']

/-- Second format string of `game_iter`. -/
def FMT_INPUTS : List Char :=
  " B=%i Y=%i SL=%i ST=%i U=%i D=%i L=%i R=%i A=%i X=%i LP=%i RP=%i ".toList

/-- `game_iter` -/
def game_iter {F : Type} (fo : FloatOps F) (m : Machine F) : Machine F :=
  let c := m.board.controller
  let b := printf FMT_CLEAR [] m.board
  let b := printf FMT_INPUTS
    [c 0, c 1, c 2, c 3, c 4, c 5, c 6, c 7, c 8, c 9, c 10, c 11] b
  let b := printf [NL, NL] [] b
  let py := if c 4 ≠ 0 then fo.subTenth m.playery else m.playery
  let py := if c 5 ≠ 0 then fo.addTenth py else py
  let px := if c 6 ≠ 0 then fo.subTenth m.playerx else m.playerx
  let px := if c 7 ≠ 0 then fo.addTenth px else px
  let buf := draw_grid fo px py m.cellsJunk
  let b := printf (cstr buf.cells CELLS_SIZE) [] b
  { m with board := b, playerx := px, playery := py }

/-! ## Poll scheduler -/

/-- Subtraction of two `uint` values. -/
def subU32 (a b : Nat) : Nat := (a % U32 + (U32 - b % U32)) % U32

/-- The argument of `sleep_us` in `main`: `16666 - (now - start)` in `uint`. -/
def tick_sleep (start now : Nat) : Nat := subU32 16666 (subU32 now start)

/-- SDK `stdio_init_all()`. -/
def stdio_init_all (b : Board) : Board := b.emit Event.stdioInitAll

/-- One iteration of the `while (true)` loop of `main`. -/
def main_tick {F : Type} (fo : FloatOps F) (m : Machine F) : Machine F :=
  let (start, b) := time_us_32 m.board
  let b := snes_fetch b
  let m := game_iter fo { m with board := b }
  let (now, b) := time_us_32 m.board
  let b := sleep_us (tick_sleep start now) b
  { m with board := b }

/-- The part of `main` before the loop. -/
def main_boot {F : Type} (m : Machine F) : Machine F :=
  { m with board := snes_init (stdio_init_all m.board) }

/-- State of `main` after `n` completed iterations of its loop. -/
def main_run {F : Type} (fo : FloatOps F) (n : Nat) (m : Machine F) : Machine F :=
  (main_tick fo)^[n] (main_boot m)

/-- Board at the entry of the call of `snes_fetch` in iteration `k` (from 0) of `main`. -/
def fetch_entry {F : Type} (fo : FloatOps F) (k : Nat) (m : Machine F) : Board :=
  (time_us_32 (main_run fo k m).board).2

/-- Timer value `start` read by the iteration of `main` that begins on board `b`. -/
def tick_start (b : Board) : Nat := b.timer b.timeReads % U32

/-- Timer value read at the end of the iteration of `main` that begins on board `b`. -/
def tick_now (b : Board) : Nat := b.timer (b.timeReads + 1) % U32

/-- The `sleep_us` requests in a log, oldest first. -/
def sleeps : List Event → List Nat
  | [] => []
  | Event.sleepUs us :: es => us :: sleeps es
  | _ :: es => sleeps es

/-- The delay requested by every `sleep_us` and `busy_wait_us` call in a log. -/
def delays : List Event → List Nat
  | [] => []
  | Event.sleepUs us :: es => us :: delays es
  | Event.busyWaitUs us :: es => us :: delays es
  | _ :: es => delays es

/-- The line operations in a log: writes and reads of GPIO lines. -/
def lineOps : List Event → List Event
  | [] => []
  | Event.gpioPut pin v :: es => Event.gpioPut pin v :: lineOps es
  | Event.gpioGet pin l :: es => Event.gpioGet pin l :: lineOps es
  | _ :: es => lineOps es

/-- An exact decimal stand-in for `float`, counting tenths; `(int)v` truncates
towards zero and saturates at the `int` range. Used to run the program on
concrete inputs. -/
def tenths : FloatOps Int where
  subTenth v := v - 1
  addTenth v := v + 1
  toInt v := max (-2147483648) (min 2147483647 (Int.tdiv v 10))
  toInt_lo v := le_max_left _ _
  toInt_hi v := by
    show max (-2147483648 : Int) (min 2147483647 (Int.tdiv v 10)) < 2147483648
    omega

/-! ## The `float` arithmetic of the target

On the RP2040 `float` is IEEE 754 binary32 and `double` is binary64, both
rounding to nearest with ties to even. The constant `0.1` is a `double`, so
`v -= 0.1` converts `v` to `double`, subtracts there, and converts the
difference back to `float`. Every finite binary32 number is an integer
multiple of `2 ^ (-149)`; it is represented by that integer. Adding or
subtracting 0.1 never overflows, so finite numbers stay finite. -/

/-- Number of binary digits of `a`, searched with `fuel` halvings. -/
def bitLengthAux : Nat → Nat → Nat
  | 0, _ => 0
  | fuel + 1, a => if a = 0 then 0 else bitLengthAux fuel (a / 2) + 1

/-- Number of binary digits of `a` (0 for 0); `a` halvings always suffice. -/
def bitLength (a : Nat) : Nat := bitLengthAux a a

/-- IEEE 754 rounding to nearest, ties to even, of the integer `n` to `p`
significant binary digits. -/
def roundSig (p : Nat) (n : Int) : Int :=
  let a := n.natAbs
  let k := bitLength a - p
  let q := a / 2 ^ k
  let r := a % 2 ^ k
  let q' := if 2 * r < 2 ^ k then q else if 2 ^ k < 2 * r then q + 1
    else if q % 2 = 0 then q else q + 1
  Int.sign n * ((q' * 2 ^ k : Nat) : Int)

/-- The `double` constant `0.1`, that is `3602879701896397 * 2 ^ (-55)`
(bit pattern 0x3FB999999999999A), in units of `2 ^ (-149)`. -/
def TENTH : Int := 3602879701896397 * 2 ^ 94

/-- The `float` operations of the program in IEEE 754 binary32. The integer `n`
stands for the number `n * 2 ^ (-149)`. The conversion `(int)v` truncates towards
zero; outside the `int` range, where C leaves it undefined, it saturates. -/
def binary32 : FloatOps Int where
  subTenth n := roundSig 24 (roundSig 53 (n - TENTH))
  addTenth n := roundSig 24 (roundSig 53 (n + TENTH))
  toInt n := max (-2147483648) (min 2147483647 (Int.tdiv n (2 ^ 149)))
  toInt_lo n := le_max_left _ _
  toInt_hi n := by
    show max (-2147483648 : Int) (min 2147483647 (Int.tdiv n (2 ^ 149))) < 2147483648
    omega

/-- The number a binary32 value of `binary32` stands for. -/
def f32_val (n : Int) : ℚ := (n : ℚ) / 2 ^ 149

/-- The integers that stand for finite binary32 numbers: those that rounding to
24 digits leaves unchanged, of magnitude below `2 ^ 128` (in units of `2 ^ (-149)`). -/
def isBinary32 (n : Int) : Prop := roundSig 24 n = n ∧ n.natAbs < 2 ^ 128 * 2 ^ 149

/-! ## Vocabulary of the statements -/

/-- The events a run added to the log: the log of `after` without the log of `before`. -/
def new_events (before after : Board) : List Event :=
  after.trace.drop before.trace.length

/-- The levels returned by the `gpio_get` calls in a log, oldest first. -/
def samples : List Event → List Bool
  | [] => []
  | Event.gpioGet _ l :: es => l :: samples es
  | _ :: es => samples es

/-- Events of one iteration of the loop of `snes_fetch` that samples `level`. -/
def bit_events (level : Bool) : List Event :=
  [Event.busyWaitUs 3, Event.gpioGet SDATA level, Event.busyWaitUs 3,
   Event.gpioPut CLOCK true, Event.busyWaitUs 6, Event.gpioPut CLOCK false]

/-- Events of the first `n` iterations of the loop of `snes_fetch`, when the
samples are `levels start`, `levels (start + 1)`, and so on. -/
def loop_events (levels : Nat → Bool) (start : Nat) : Nat → List Event
  | 0 => []
  | n + 1 => loop_events levels start n ++ bit_events (levels (start + n))

/-- A board used to run the program on concrete inputs: all lines are
unconfigured inputs, the data line alternates low, high, low, ... and the
timer advances by 1000 between two reads. -/
def demo_board : Board where
  sio := fun _ => false
  dir := fun _ => false
  out := fun _ => false
  levels := fun n => n % 2 == 1
  reads := 0
  timer := fun n => 5000 + 1000 * n
  timeReads := 0
  controller := fun _ => 7
  trace := []

/-- A second board presenting the same data-line levels as `demo_board`, with
another history and other content of `controller`. -/
def demo_board_late : Board where
  sio := fun _ => true
  dir := fun p => p == 14
  out := fun _ => true
  levels := fun n => n % 2 == 0
  reads := 3
  timer := fun _ => 0
  timeReads := 9
  controller := fun i => i
  trace := [Event.stdioInitAll]

/-- The values returned by the `time_us_32` calls in a log, oldest first. -/
def timerReads : List Event → List Nat
  | [] => []
  | Event.timeUs32 t :: es => t :: timerReads es
  | _ :: es => timerReads es

/-- A program state on `demo_board` with the player at (20.0, 10.0), in the
decimal model `tenths`. -/
def demo_machine : Machine Int where
  board := demo_board
  playerx := 200
  playery := 100
  cellsJunk := fun _ => 'x'

/-- A program state whose timer advances by 16667 between two reads. -/
def slow_machine : Machine Int where
  board := { demo_board with timer := fun n => 16667 * n }
  playerx := 200
  playery := 100
  cellsJunk := fun _ => 'x'

/-- A program state whose timer passes `2 ^ 32` between two reads: it reads
`2 ^ 32 - 1`, then 999 after wrapping. -/
def wrap_machine : Machine Int where
  board := { demo_board with timer := fun n => 4294967295 + 1000 * n }
  playerx := 200
  playery := 100
  cellsJunk := fun _ => 'x'

/-- A board on which only Up is held: `controller[4]` is 1, all else 0. -/
def up_board : Board := { demo_board with controller := fun i => if i = 4 then 1 else 0 }

/-- A program state with only Up held and the player at (20.0, 10.0), the
initial values of `playerx` and `playery`, in binary32. -/
def up_machine : Machine Int where
  board := up_board
  playerx := 20 * 2 ^ 149
  playery := 10 * 2 ^ 149
  cellsJunk := fun _ => 'x'

/-- A program state with only Up held and the player at (20.0, 4194304.0) in
binary32; 4194304 is `2 ^ 22`. -/
def far_machine : Machine Int where
  board := up_board
  playerx := 20 * 2 ^ 149
  playery := 2 ^ 171
  cellsJunk := fun _ => 'x'

end Snes

/-! ## Theorems: bus driver -/

namespace Snes

theorem new_events_append (b r : Board) (es : List Event) (h : r.trace = b.trace ++ es) :
    new_events b r = es := by
  simp [new_events, h]

theorem loop_events_eq_flatMap (levels : Nat → Bool) (start n : Nat) :
    loop_events levels start n
      = (List.range n).flatMap (fun i => bit_events (levels (start + i))) := by
  induction n with
  | zero => simp [loop_events]
  | succ n ih => simp [loop_events, ih, List.range_succ]

theorem samples_append (xs ys : List Event) :
    samples (xs ++ ys) = samples xs ++ samples ys := by
  induction xs with
  | nil => rfl
  | cons e es ih => cases e <;> simp [samples, ih]

theorem lineOps_append (xs ys : List Event) :
    lineOps (xs ++ ys) = lineOps xs ++ lineOps ys := by
  induction xs with
  | nil => rfl
  | cons e es ih => cases e <;> simp [lineOps, ih]

theorem delays_append (xs ys : List Event) :
    delays (xs ++ ys) = delays xs ++ delays ys := by
  induction xs with
  | nil => rfl
  | cons e es ih => cases e <;> simp [delays, ih]

theorem sleeps_append (xs ys : List Event) :
    sleeps (xs ++ ys) = sleeps xs ++ sleeps ys := by
  induction xs with
  | nil => rfl
  | cons e es ih => cases e <;> simp [sleeps, ih]

theorem samples_loop_events (levels : Nat → Bool) (start n : Nat) :
    samples (loop_events levels start n) = (List.range n).map (fun i => levels (start + i)) := by
  induction n with
  | zero => rfl
  | succ n ih => simp [loop_events, samples_append, ih, List.range_succ, bit_events, samples]

theorem lineOps_loop_events (levels : Nat → Bool) (start n : Nat) :
    lineOps (loop_events levels start n)
      = (List.range n).flatMap (fun i =>
          [Event.gpioGet SDATA (levels (start + i)), Event.gpioPut CLOCK true,
           Event.gpioPut CLOCK false]) := by
  induction n with
  | zero => rfl
  | succ n ih => simp [loop_events, lineOps_append, ih, List.range_succ, bit_events, lineOps]

theorem delays_loop_events (levels : Nat → Bool) (start n : Nat) :
    delays (loop_events levels start n) = (List.range n).flatMap (fun _ => [3, 3, 6]) := by
  induction n with
  | zero => rfl
  | succ n ih => simp [loop_events, delays_append, ih, List.range_succ, bit_events, delays]

theorem sleeps_loop_events (levels : Nat → Bool) (start n : Nat) :
    sleeps (loop_events levels start n) = [] := by
  induction n with
  | zero => rfl
  | succ n ih => simp [loop_events, sleeps_append, ih, bit_events, sleeps]

theorem length_loop_events (levels : Nat → Bool) (start n : Nat) :
    (loop_events levels start n).length = 6 * n := by
  induction n with
  | zero => rfl
  | succ n ih => simp [loop_events, ih, bit_events]; omega

theorem length_lineOps_loop_events (levels : Nat → Bool) (start n : Nat) :
    (lineOps (loop_events levels start n)).length = 3 * n := by
  induction n with
  | zero => rfl
  | succ n ih => simp [loop_events, lineOps_append, ih, bit_events, lineOps]; omega

theorem length_delays_loop_events (levels : Nat → Bool) (start n : Nat) :
    (delays (loop_events levels start n)).length = 3 * n := by
  induction n with
  | zero => rfl
  | succ n ih => simp [loop_events, delays_append, ih, bit_events, delays]; omega

theorem sum_delays_loop_events (levels : Nat → Bool) (start n : Nat) :
    (delays (loop_events levels start n)).sum = 12 * n := by
  induction n with
  | zero => rfl
  | succ n ih => simp [loop_events, delays_append, ih, bit_events, delays]; omega

/-- Effect of the first `n` iterations of the loop of `snes_fetch`. -/
theorem fetch_loop_spec (n : Nat) (b : Board) :
    ((List.range n).foldl snes_fetch_bit b).reads = b.reads + n ∧
    ((List.range n).foldl snes_fetch_bit b).levels = b.levels ∧
    ((List.range n).foldl snes_fetch_bit b).timer = b.timer ∧
    ((List.range n).foldl snes_fetch_bit b).timeReads = b.timeReads ∧
    ((List.range n).foldl snes_fetch_bit b).sio = b.sio ∧
    ((List.range n).foldl snes_fetch_bit b).dir = b.dir ∧
    ((List.range n).foldl snes_fetch_bit b).out
      = (if n = 0 then b.out else Function.update b.out CLOCK false) ∧
    (∀ i, ((List.range n).foldl snes_fetch_bit b).controller i
      = if i < n then lnot (b.levels (b.reads + i)) else b.controller i) ∧
    ((List.range n).foldl snes_fetch_bit b).trace
      = b.trace ++ loop_events b.levels b.reads n := by
  induction n with
  | zero => simp [loop_events]
  | succ n ih =>
    obtain ⟨h1, h2, h3, h4, h5, h6, h7, h8, h9⟩ := ih
    rw [List.range_succ, List.foldl_append]
    simp only [List.foldl_cons, List.foldl_nil]
    refine ⟨?_, ?_, ?_, ?_, ?_, ?_, ?_, ?_, ?_⟩
    · simp [snes_fetch_bit, gpio_put, gpio_get, busy_wait_us, Board.emit, h1]; omega
    · simp [snes_fetch_bit, gpio_put, gpio_get, busy_wait_us, Board.emit, h2]
    · simp [snes_fetch_bit, gpio_put, gpio_get, busy_wait_us, Board.emit, h3]
    · simp [snes_fetch_bit, gpio_put, gpio_get, busy_wait_us, Board.emit, h4]
    · simp [snes_fetch_bit, gpio_put, gpio_get, busy_wait_us, Board.emit, h5]
    · simp [snes_fetch_bit, gpio_put, gpio_get, busy_wait_us, Board.emit, h6]
    · simp only [snes_fetch_bit, gpio_put, gpio_get, busy_wait_us, Board.emit, h7]
      by_cases hn : n = 0 <;> simp [hn]
    · intro i
      simp only [snes_fetch_bit, gpio_put, gpio_get, busy_wait_us, Board.emit, h1, h2]
      by_cases hi : i = n
      · subst hi; simp
      · rw [Function.update_noteq hi, h8 i]
        by_cases hlt : i < n
        · simp [hlt, Nat.lt_succ_of_lt hlt]
        · have : ¬ i < n + 1 := by omega
          simp [hlt, this]
    · simp [snes_fetch_bit, gpio_put, gpio_get, busy_wait_us, Board.emit, h1, h2, h9,
        loop_events, bit_events]

/-- Effect of `snes_fetch` on every component of the board. -/
theorem snes_fetch_spec (b : Board) :
    (snes_fetch b).reads = b.reads + 16 ∧
    (snes_fetch b).levels = b.levels ∧
    (snes_fetch b).timer = b.timer ∧
    (snes_fetch b).timeReads = b.timeReads ∧
    (snes_fetch b).sio = b.sio ∧
    (snes_fetch b).dir = b.dir ∧
    (snes_fetch b).out
      = Function.update (Function.update (Function.update b.out LATCH true) LATCH false)
          CLOCK false ∧
    (∀ i, (snes_fetch b).controller i
      = if i < 16 then lnot (b.levels (b.reads + i)) else b.controller i) ∧
    (snes_fetch b).trace
      = b.trace ++ ([Event.gpioPut LATCH true, Event.sleepUs 12, Event.gpioPut LATCH false,
          Event.sleepUs 6] ++ loop_events b.levels b.reads 16) := by
  obtain ⟨h1, h2, h3, h4, h5, h6, h7, h8, h9⟩ :=
    fetch_loop_spec 16 (sleep_us 6 (gpio_put LATCH false (sleep_us 12 (gpio_put LATCH true b))))
  refine ⟨?_, ?_, ?_, ?_, ?_, ?_, ?_, ?_, ?_⟩
  · simpa [snes_fetch, gpio_put, sleep_us, Board.emit] using h1
  · simpa [snes_fetch, gpio_put, sleep_us, Board.emit] using h2
  · simpa [snes_fetch, gpio_put, sleep_us, Board.emit] using h3
  · simpa [snes_fetch, gpio_put, sleep_us, Board.emit] using h4
  · simpa [snes_fetch, gpio_put, sleep_us, Board.emit] using h5
  · simpa [snes_fetch, gpio_put, sleep_us, Board.emit] using h6
  · simpa [snes_fetch, gpio_put, sleep_us, Board.emit] using h7
  · simpa [snes_fetch, gpio_put, sleep_us, Board.emit] using h8
  · simpa [snes_fetch, gpio_put, sleep_us, Board.emit] using h9

/-- C1: whatever the `controller` array held before, after one `snes_fetch` entry `i`
(for every `i` in 0..15, indices 12..15 included) is 1 when the `i`-th level sampled
from the data line is low and 0 when it is high. The levels sampled, in order, are
exactly the 16 presented; every entry ends in {0, 1}; and two fetches presented with
the same 16 levels produce the same 16 entries. -/
theorem snes_fetch_controller (s : Nat → Bool) (b b' : Board)
    (hb : ∀ i, i < 16 → b.levels (b.reads + i) = s i)
    (hb' : ∀ i, i < 16 → b'.levels (b'.reads + i) = s i) :
    samples (new_events b (snes_fetch b)) = (List.range 16).map s ∧
    ∀ i, i < 16 →
      (s i = false → (snes_fetch b).controller i = 1) ∧
      (s i = true → (snes_fetch b).controller i = 0) ∧
      (snes_fetch b).controller i ≤ 1 ∧
      (snes_fetch b').controller i = (snes_fetch b).controller i := by
  obtain ⟨-, -, -, -, -, -, -, hc, ht⟩ := snes_fetch_spec b
  obtain ⟨-, -, -, -, -, -, -, hc', -⟩ := snes_fetch_spec b'
  refine ⟨?_, ?_⟩
  · rw [new_events_append b _ _ ht, samples_append, samples_loop_events]
    simp only [samples, List.nil_append]
    exact List.map_congr_left (fun i hi => hb i (List.mem_range.mp hi))
  · intro i hi
    rw [hc i, hc' i, if_pos hi, if_pos hi, hb i hi, hb' i hi]
    cases s i <;> simp [lnot]

/-- Witness of C1 on two concrete boards with different histories. -/
theorem snes_fetch_controller_witness :
    (∀ i, i < 16 → demo_board.levels (demo_board.reads + i) = (fun n => n % 2 == 1) i) ∧
    (∀ i, i < 16 →
      demo_board_late.levels (demo_board_late.reads + i) = (fun n => n % 2 == 1) i) ∧
    (samples (new_events demo_board (snes_fetch demo_board))
        = (List.range 16).map (fun n => n % 2 == 1) ∧
      ∀ i, i < 16 →
        ((fun n => n % 2 == 1) i = false → (snes_fetch demo_board).controller i = 1) ∧
        ((fun n => n % 2 == 1) i = true → (snes_fetch demo_board).controller i = 0) ∧
        (snes_fetch demo_board).controller i ≤ 1 ∧
        (snes_fetch demo_board_late).controller i = (snes_fetch demo_board).controller i) :=
  ⟨fun i _ => by simp [demo_board],
   fun i _ => by simp [demo_board_late]; omega,
   snes_fetch_controller (fun n => n % 2 == 1) demo_board demo_board_late
     (fun i _ => by simp [demo_board])
     (fun i _ => by simp [demo_board_late]; omega)⟩

/-- C2: ignoring delays, the line operations one `snes_fetch` performs are exactly
latch := 1, latch := 0, then 16 repetitions of (read data, clock := 1, clock := 0):
50 operations, in this order, on no other line; the fetch performs nothing else but
delays; the earlier log is kept; and the level of the `i`-th read is the one whose
negation is stored at index `i`. -/
theorem snes_fetch_line_sequence (b : Board) :
    (snes_fetch b).trace = b.trace ++ new_events b (snes_fetch b) ∧
    lineOps (new_events b (snes_fetch b))
      = [Event.gpioPut LATCH true, Event.gpioPut LATCH false]
        ++ (List.range 16).flatMap (fun i =>
            [Event.gpioGet SDATA (b.levels (b.reads + i)), Event.gpioPut CLOCK true,
             Event.gpioPut CLOCK false]) ∧
    (lineOps (new_events b (snes_fetch b))).length = 2 + 3 * 16 ∧
    (new_events b (snes_fetch b)).length
      = (lineOps (new_events b (snes_fetch b))).length
        + (delays (new_events b (snes_fetch b))).length ∧
    (∀ i, (snes_fetch b).controller i
      = if i < 16 then lnot (b.levels (b.reads + i)) else b.controller i) := by
  obtain ⟨-, -, -, -, -, -, -, hc, ht⟩ := snes_fetch_spec b
  rw [new_events_append b _ _ ht]
  refine ⟨ht, ?_, ?_, ?_, hc⟩
  · rw [lineOps_append, lineOps_loop_events]
    rfl
  · rw [lineOps_append, List.length_append, length_lineOps_loop_events]
    rfl
  · rw [lineOps_append, delays_append, List.length_append, List.length_append,
      List.length_append, length_lineOps_loop_events, length_delays_loop_events,
      length_loop_events]
    rfl

/-- C5: the delay arguments (`sleep_us` and `busy_wait_us`) issued by one `snes_fetch`
sum to 12 + 6 + 16 * (3 + 3 + 6) = 210 microseconds whatever is sampled; the log of
the fetch shows 12 after latch high, 6 after latch low, and for each bit 3 before the
sample, 3 after it and 6 between clock high and clock low. -/
theorem snes_fetch_delays (b : Board) :
    new_events b (snes_fetch b)
      = [Event.gpioPut LATCH true, Event.sleepUs 12, Event.gpioPut LATCH false,
          Event.sleepUs 6]
        ++ (List.range 16).flatMap (fun i =>
            [Event.busyWaitUs 3, Event.gpioGet SDATA (b.levels (b.reads + i)),
             Event.busyWaitUs 3, Event.gpioPut CLOCK true, Event.busyWaitUs 6,
             Event.gpioPut CLOCK false]) ∧
    delays (new_events b (snes_fetch b))
      = [12, 6] ++ (List.range 16).flatMap (fun _ => [3, 3, 6]) ∧
    (delays (new_events b (snes_fetch b))).sum = 12 + 6 + 16 * (3 + 3 + 6) ∧
    (delays (new_events b (snes_fetch b))).sum = 210 := by
  obtain ⟨-, -, -, -, -, -, -, -, ht⟩ := snes_fetch_spec b
  rw [new_events_append b _ _ ht]
  refine ⟨?_, ?_, ?_, ?_⟩
  · rw [loop_events_eq_flatMap]
    rfl
  · rw [delays_append, delays_loop_events]
    rfl
  · rw [delays_append, List.sum_append, sum_delays_loop_events]
    rfl
  · rw [delays_append, List.sum_append, sum_delays_loop_events]
    rfl

/-- C7: from any initial board, after `snes_init` the latch line (15) and the clock
line (14) are outputs, the data line (16) is an input and the clock line is driven
high; the calls made are the three `gpio_init`, the three `gpio_set_dir` and last the
write of clock high, and nothing else; no other line changes. -/
theorem snes_init_lines (b : Board) :
    LATCH = 15 ∧ CLOCK = 14 ∧ SDATA = 16 ∧
    (snes_init b).dir 15 = GPIO_OUT ∧
    (snes_init b).dir 14 = GPIO_OUT ∧
    (snes_init b).dir 16 = GPIO_IN ∧
    (snes_init b).out 14 = true ∧
    (snes_init b).trace = b.trace ++ new_events b (snes_init b) ∧
    new_events b (snes_init b)
      = [Event.gpioInit 15, Event.gpioInit 14, Event.gpioInit 16,
         Event.gpioSetDir 15 GPIO_OUT, Event.gpioSetDir 14 GPIO_OUT,
         Event.gpioSetDir 16 GPIO_IN, Event.gpioPut 14 true] ∧
    (∀ p, p ≠ 15 → p ≠ 14 → p ≠ 16 →
      (snes_init b).dir p = b.dir p ∧ (snes_init b).out p = b.out p ∧
      (snes_init b).sio p = b.sio p) := by
  have ht : (snes_init b).trace = b.trace ++
      [Event.gpioInit 15, Event.gpioInit 14, Event.gpioInit 16,
       Event.gpioSetDir 15 GPIO_OUT, Event.gpioSetDir 14 GPIO_OUT,
       Event.gpioSetDir 16 GPIO_IN, Event.gpioPut 14 true] := by
    simp [snes_init, gpio_init, gpio_set_dir, gpio_put, LATCH, CLOCK, SDATA]
  rw [new_events_append b _ _ ht]
  refine ⟨rfl, rfl, rfl, ?_, ?_, ?_, ?_, ht, rfl, ?_⟩
  · simp [snes_init, gpio_init, gpio_set_dir, gpio_put, LATCH, CLOCK, SDATA, GPIO_OUT]
  · simp [snes_init, gpio_init, gpio_set_dir, gpio_put, LATCH, CLOCK, SDATA, GPIO_OUT]
  · simp [snes_init, gpio_init, gpio_set_dir, gpio_put, LATCH, CLOCK, SDATA, GPIO_IN]
  · simp [snes_init, gpio_init, gpio_set_dir, gpio_put, LATCH, CLOCK, SDATA]
  · intro p h15 h14 h16
    simp [snes_init, gpio_init, gpio_set_dir, gpio_put, LATCH, CLOCK, SDATA,
      Function.update_noteq h15, Function.update_noteq h14, Function.update_noteq h16]

/-- Witness of C7: a pin other than the three lines keeps its configuration. -/
theorem snes_init_lines_witness :
    (snes_init demo_board).dir 13 = demo_board.dir 13 ∧
    (snes_init demo_board).out 13 = demo_board.out 13 ∧
    (snes_init demo_board).sio 13 = demo_board.sio 13 :=
  (snes_init_lines demo_board).2.2.2.2.2.2.2.2.2 13 (by decide) (by decide) (by decide)

/-! ## Theorems: reference consumer -/

theorem push_loop_spec (f : Nat → Char) (n : Nat) (buf : CellBuf) :
    ((List.range n).foldl (fun acc x => acc.push (f x)) buf).ptr = buf.ptr + n ∧
    ∀ i, ((List.range n).foldl (fun acc x => acc.push (f x)) buf).cells i
      = if buf.ptr ≤ i ∧ i < buf.ptr + n then f (i - buf.ptr) else buf.cells i := by
  induction n with
  | zero =>
    refine ⟨rfl, fun i => ?_⟩
    have h : ¬ (buf.ptr ≤ i ∧ i < buf.ptr + 0) := by omega
    rw [if_neg h]
    rfl
  | succ n ih =>
    rw [List.range_succ, List.foldl_append]
    simp only [List.foldl_cons, List.foldl_nil]
    generalize (List.range n).foldl (fun acc x => acc.push (f x)) buf = r at ih
    obtain ⟨hp, hc⟩ := ih
    simp only [CellBuf.push, hp]
    refine ⟨by omega, fun i => ?_⟩
    by_cases hi : i = buf.ptr + n
    · subst hi; simp
    · rw [Function.update_noteq hi, hc i]
      by_cases h : buf.ptr ≤ i ∧ i < buf.ptr + n
      · have h' : buf.ptr ≤ i ∧ i < buf.ptr + (n + 1) := ⟨h.1, by omega⟩
        rw [if_pos h, if_pos h']
      · have h' : ¬ (buf.ptr ≤ i ∧ i < buf.ptr + (n + 1)) := by omega
        rw [if_neg h, if_neg h']

theorem draw_row_spec {F : Type} (fo : FloatOps F) (px py : F) (buf : CellBuf) (y : Nat) :
    (draw_row fo px py buf y).ptr = buf.ptr + 41 ∧
    ∀ i, (draw_row fo px py buf y).cells i
      = if buf.ptr ≤ i ∧ i < buf.ptr + 41 then
          (if i - buf.ptr < 40 then draw_cell fo px py (i - buf.ptr) y else NL)
        else buf.cells i := by
  have hl := push_loop_spec (fun x => draw_cell fo px py x y) 40 buf
  unfold draw_row
  generalize (List.range 40).foldl (fun acc x => acc.push (draw_cell fo px py x y)) buf = r at hl
  obtain ⟨hp, hc⟩ := hl
  simp only [CellBuf.push, hp]
  refine ⟨?_, fun i => ?_⟩
  · trivial
  by_cases hi : i = buf.ptr + 40
  · subst hi; simp
  · rw [Function.update_noteq hi, hc i]
    by_cases h : buf.ptr ≤ i ∧ i < buf.ptr + 40
    · have h' : buf.ptr ≤ i ∧ i < buf.ptr + 41 := ⟨h.1, by omega⟩
      have h'' : i - buf.ptr < 40 := by omega
      rw [if_pos h, if_pos h', if_pos h'']
    · have h' : ¬ (buf.ptr ≤ i ∧ i < buf.ptr + 41) := by omega
      rw [if_neg h, if_neg h']

theorem draw_rows_spec {F : Type} (fo : FloatOps F) (px py : F) (n : Nat) (buf : CellBuf) :
    ((List.range n).foldl (draw_row fo px py) buf).ptr = buf.ptr + 41 * n ∧
    ∀ i, ((List.range n).foldl (draw_row fo px py) buf).cells i
      = if buf.ptr ≤ i ∧ i < buf.ptr + 41 * n then
          (if (i - buf.ptr) % 41 < 40
            then draw_cell fo px py ((i - buf.ptr) % 41) ((i - buf.ptr) / 41) else NL)
        else buf.cells i := by
  induction n with
  | zero =>
    refine ⟨rfl, fun i => ?_⟩
    have h : ¬ (buf.ptr ≤ i ∧ i < buf.ptr + 41 * 0) := by omega
    rw [if_neg h]
    rfl
  | succ n ih =>
    rw [List.range_succ, List.foldl_append]
    simp only [List.foldl_cons, List.foldl_nil]
    have hr := draw_row_spec fo px py ((List.range n).foldl (draw_row fo px py) buf) n
    generalize (List.range n).foldl (draw_row fo px py) buf = r at ih hr
    obtain ⟨hp, hc⟩ := ih
    obtain ⟨hp', hc'⟩ := hr
    rw [hp] at hp' hc'
    refine ⟨by omega, fun i => ?_⟩
    rw [hc' i, hc i]
    by_cases h1 : buf.ptr + 41 * n ≤ i ∧ i < buf.ptr + 41 * n + 41
    · have h2 : buf.ptr ≤ i ∧ i < buf.ptr + 41 * (n + 1) := by omega
      have h3 : (i - buf.ptr) % 41 = i - (buf.ptr + 41 * n) := by omega
      have h4 : (i - buf.ptr) / 41 = n := by omega
      rw [if_pos h1, if_pos h2, h3, h4]
    · rw [if_neg h1]
      by_cases h2 : buf.ptr ≤ i ∧ i < buf.ptr + 41 * n
      · have h3 : buf.ptr ≤ i ∧ i < buf.ptr + 41 * (n + 1) := by omega
        rw [if_pos h2, if_pos h3]
      · have h3 : ¬ (buf.ptr ≤ i ∧ i < buf.ptr + 41 * (n + 1)) := by omega
        rw [if_neg h2, if_neg h3]

theorem draw_grid_spec {F : Type} (fo : FloatOps F) (px py : F) (junk : Nat → Char) :
    (draw_grid fo px py junk).ptr = 821 ∧
    ∀ i, (draw_grid fo px py junk).cells i
      = if i < 820 then
          (if i % 41 < 40 then draw_cell fo px py (i % 41) (i / 41) else NL)
        else if i = 820 then NUL else junk i := by
  have hl := draw_rows_spec fo px py 20 { cells := junk, ptr := 0 }
  unfold draw_grid
  generalize (List.range 20).foldl (draw_row fo px py) { cells := junk, ptr := 0 } = r at hl
  obtain ⟨hp, hc⟩ := hl
  simp only [CellBuf.push, hp]
  refine ⟨trivial, fun i => ?_⟩
  by_cases hi : i = 820
  · subst hi; simp
  · have hi' : i ≠ 0 + 41 * 20 := by omega
    rw [Function.update_noteq hi', hc i]
    simp only [Nat.zero_le, true_and, Nat.zero_add, Nat.sub_zero, if_neg hi]

theorem intToUint_eq_iff (z : Int) (x : Nat) (hlo : -2147483648 ≤ z) (hhi : z < 2147483648)
    (hx : x < 2147483648) : intToUint z = x ↔ z = (x : Int) := by
  unfold intToUint
  omega

theorem takeWhile_append_stop {α : Type} (p : α → Bool) (xs : List α) (a : α) (ys : List α)
    (hxs : ∀ x ∈ xs, p x = true) (ha : p a = false) :
    (xs ++ a :: ys).takeWhile p = xs := by
  induction xs with
  | nil => simp [List.takeWhile, ha]
  | cons x xs ih =>
    have hx : p x = true := hxs x (List.mem_cons_self x xs)
    have hrest : ∀ z ∈ xs, p z = true := fun z hz => hxs z (List.mem_cons_of_mem x hz)
    simp [List.takeWhile, hx, ih hrest]

/-- The C string at the start of an array whose first `n` characters are not NUL
and whose character `n` is NUL consists of the first `n` characters. -/
theorem cstr_eq (mem : Nat → Char) (n k : Nat) (hn : ∀ i, i < n → mem i ≠ NUL)
    (hz : mem n = NUL) : cstr mem (n + (k + 1)) = (List.range n).map mem := by
  unfold cstr
  rw [List.range_add, List.map_append, List.range_succ_eq_map, List.map_cons, List.map_cons]
  apply takeWhile_append_stop
  · intro c hc
    obtain ⟨i, hi, rfl⟩ := List.mem_map.mp hc
    simpa using hn i (List.mem_range.mp hi)
  · simpa using hz

/-- Effect of `game_iter`: it only prints and moves the player. -/
theorem game_iter_spec {F : Type} (fo : FloatOps F) (m : Machine F) :
    (game_iter fo m).board.reads = m.board.reads ∧
    (game_iter fo m).board.levels = m.board.levels ∧
    (game_iter fo m).board.timer = m.board.timer ∧
    (game_iter fo m).board.timeReads = m.board.timeReads ∧
    (game_iter fo m).board.sio = m.board.sio ∧
    (game_iter fo m).board.dir = m.board.dir ∧
    (game_iter fo m).board.out = m.board.out ∧
    (game_iter fo m).board.controller = m.board.controller ∧
    (game_iter fo m).cellsJunk = m.cellsJunk ∧
    (game_iter fo m).board.trace = m.board.trace ++
      [Event.printf FMT_CLEAR [],
       Event.printf FMT_INPUTS
         [m.board.controller 0, m.board.controller 1, m.board.controller 2,
          m.board.controller 3, m.board.controller 4, m.board.controller 5,
          m.board.controller 6, m.board.controller 7, m.board.controller 8,
          m.board.controller 9, m.board.controller 10, m.board.controller 11],
       Event.printf [NL, NL] [],
       Event.printf (cstr (draw_grid fo (game_iter fo m).playerx (game_iter fo m).playery
         m.cellsJunk).cells CELLS_SIZE) []] := by
  refine ⟨rfl, rfl, rfl, rfl, rfl, rfl, rfl, rfl, rfl, ?_⟩
  simp [game_iter, printf, Board.emit]

theorem draw_cell_ne_NUL {F : Type} (fo : FloatOps F) (px py : F) (x y : Nat) :
    draw_cell fo px py x y ≠ NUL := by
  unfold draw_cell
  split_ifs <;> decide

/-- C9: for every player position the buffer built by `game_iter` is 20 rows of 40
cells each followed by a newline, then a NUL: 821 bytes of the 840-byte array. The
cell at column `x`, row `y` is `*` on the border (`y = 0`, `y = 19`, `x = 0`, `x = 39`),
otherwise `#` when the truncated player position is `(x, y)`, otherwise a space. So at
most one `#` appears, the text holds only `*`, `#`, space and newline, and this text
is what `game_iter` prints last. -/
theorem game_iter_grid {F : Type} (fo : FloatOps F) (px py : F) (junk : Nat → Char) :
    (draw_grid fo px py junk).ptr = 20 * (40 + 1) + 1 ∧
    (draw_grid fo px py junk).ptr = 821 ∧
    (draw_grid fo px py junk).ptr ≤ CELLS_SIZE ∧ CELLS_SIZE = 840 ∧
    (∀ x y, x < 40 → y < 20 →
      (draw_grid fo px py junk).cells (41 * y + x)
        = if y = 0 ∨ y = 19 ∨ x = 0 ∨ x = 39 then '*'
          else if fo.toInt px = (x : Int) ∧ fo.toInt py = (y : Int) then '#'
          else ' ') ∧
    (∀ y, y < 20 → (draw_grid fo px py junk).cells (41 * y + 40) = NL) ∧
    (draw_grid fo px py junk).cells 820 = NUL ∧
    (∀ i, 821 ≤ i → (draw_grid fo px py junk).cells i = junk i) ∧
    (∀ i j, i < 821 → j < 821 → (draw_grid fo px py junk).cells i = '#' →
      (draw_grid fo px py junk).cells j = '#' → i = j) ∧
    (∀ i, i < 820 →
      (draw_grid fo px py junk).cells i = '*' ∨ (draw_grid fo px py junk).cells i = '#' ∨
      (draw_grid fo px py junk).cells i = ' ' ∨ (draw_grid fo px py junk).cells i = NL) ∧
    cstr (draw_grid fo px py junk).cells CELLS_SIZE
      = (List.range 820).map (draw_grid fo px py junk).cells ∧
    (∀ m : Machine F, (game_iter fo m).board.trace.getLast?
      = some (Event.printf (cstr (draw_grid fo (game_iter fo m).playerx
          (game_iter fo m).playery m.cellsJunk).cells CELLS_SIZE) [])) := by
  obtain ⟨hp, hc⟩ := draw_grid_spec fo px py junk
  have hcell : ∀ x y, x < 40 → y < 20 →
      (draw_grid fo px py junk).cells (41 * y + x) = draw_cell fo px py x y := by
    intro x y hx hy
    have h1 : 41 * y + x < 820 := by omega
    have h2 : (41 * y + x) % 41 = x := by omega
    have h3 : (41 * y + x) / 41 = y := by omega
    rw [hc, if_pos h1, h2, h3, if_pos hx]
  have hhash : ∀ i, i < 821 → (draw_grid fo px py junk).cells i = '#' →
      (i : Int) = 41 * fo.toInt py + fo.toInt px := by
    intro i hi h
    rw [hc] at h
    by_cases h1 : i < 820
    · rw [if_pos h1] at h
      by_cases h2 : i % 41 < 40
      · rw [if_pos h2] at h
        unfold draw_cell at h
        split_ifs at h with hb hpos
        · exact absurd h (by decide)
        · have hx := (intToUint_eq_iff _ (i % 41) (fo.toInt_lo px) (fo.toInt_hi px)
            (by omega)).mp hpos.1
          have hy := (intToUint_eq_iff _ (i / 41) (fo.toInt_lo py) (fo.toInt_hi py)
            (by omega)).mp hpos.2
          omega
        · exact absurd h (by decide)
      · rw [if_neg h2] at h
        exact absurd h (by decide)
    · have h2 : i = 820 := by omega
      rw [if_neg h1, if_pos h2] at h
      exact absurd h (by decide)
  refine ⟨hp, hp, ?_, rfl, ?_, ?_, ?_, ?_, ?_, ?_, ?_, ?_⟩
  · rw [hp]; decide
  · intro x y hx hy
    rw [hcell x y hx hy]
    unfold draw_cell
    have ex := intToUint_eq_iff _ x (fo.toInt_lo px) (fo.toInt_hi px) (by omega)
    have ey := intToUint_eq_iff _ y (fo.toInt_lo py) (fo.toInt_hi py) (by omega)
    simp only [ex, ey]
  · intro y hy
    have h1 : 41 * y + 40 < 820 := by omega
    have h2 : ¬ (41 * y + 40) % 41 < 40 := by omega
    rw [hc, if_pos h1, if_neg h2]
  · rw [hc]; rfl
  · intro i hi
    have h1 : ¬ i < 820 := by omega
    have h2 : ¬ i = 820 := by omega
    rw [hc, if_neg h1, if_neg h2]
  · intro i j hi hj h1 h2
    have e1 := hhash i hi h1
    have e2 := hhash j hj h2
    omega
  · intro i hi
    rw [hc, if_pos hi]
    by_cases h2 : i % 41 < 40
    · rw [if_pos h2]
      unfold draw_cell
      split_ifs <;> simp
    · rw [if_neg h2]; simp
  · apply cstr_eq _ 820 19
    · intro i hi
      rw [hc, if_pos hi]
      by_cases h2 : i % 41 < 40
      · rw [if_pos h2]; exact draw_cell_ne_NUL fo px py _ _
      · rw [if_neg h2]; decide
    · rw [hc]; rfl
  · intro m
    rw [(game_iter_spec fo m).2.2.2.2.2.2.2.2.2]
    simp

/-- Witness of C9: the grid drawn for a player at (20.0, 10.0) in the decimal model. -/
theorem game_iter_grid_witness :
    (draw_grid tenths 200 100 (fun _ => 'x')).cells (41 * 10 + 20)
      = (if (10 : Nat) = 0 ∨ (10 : Nat) = 19 ∨ (20 : Nat) = 0 ∨ (20 : Nat) = 39 then '*'
          else if tenths.toInt 200 = ((20 : Nat) : Int) ∧ tenths.toInt 100 = ((10 : Nat) : Int)
            then '#'
          else ' ') :=
  (game_iter_grid tenths 200 100 (fun _ => 'x')).2.2.2.2.1 20 10 (by decide) (by decide)

/-! ## Theorems: poll scheduler -/

theorem timerReads_append (xs ys : List Event) :
    timerReads (xs ++ ys) = timerReads xs ++ timerReads ys := by
  induction xs with
  | nil => rfl
  | cons e es ih => cases e <;> simp [timerReads, ih]

theorem timerReads_loop_events (levels : Nat → Bool) (start n : Nat) :
    timerReads (loop_events levels start n) = [] := by
  induction n with
  | zero => rfl
  | succ n ih => simp [loop_events, timerReads_append, ih, bit_events, timerReads]

/-- Effect of one iteration of the loop of `main`. -/
theorem main_tick_spec {F : Type} (fo : FloatOps F) (m : Machine F) :
    (main_tick fo m).board.dir = m.board.dir ∧
    (main_tick fo m).board.out
      = Function.update (Function.update (Function.update m.board.out LATCH true) LATCH false)
          CLOCK false ∧
    (∃ mid : List Event, sleeps mid = [12, 6] ∧ timerReads mid = [] ∧
      (main_tick fo m).board.trace = m.board.trace ++
        (Event.timeUs32 (tick_start m.board) :: (mid ++
          [Event.timeUs32 (tick_now m.board),
           Event.sleepUs (tick_sleep (tick_start m.board) (tick_now m.board))]))) := by
  obtain ⟨-, -, f3, f4, -, f6, f7, -, f9⟩ := snes_fetch_spec (time_us_32 m.board).2
  obtain ⟨-, -, g3, g4, -, g6, g7, -, -, g10⟩ :=
    game_iter_spec fo { m with board := snes_fetch (time_us_32 m.board).2 }
  obtain ⟨G, hG, hGs, hGt⟩ : ∃ G : List Event,
      (game_iter fo { m with board := snes_fetch (time_us_32 m.board).2 }).board.trace
        = (snes_fetch (time_us_32 m.board).2).trace ++ G ∧ sleeps G = [] ∧ timerReads G = [] :=
    ⟨_, g10, rfl, rfl⟩
  refine ⟨?_, ?_, ?_⟩
  · simp only [main_tick, time_us_32, sleep_us, Board.emit] at *
    rw [g6, f6]
  · simp only [main_tick, time_us_32, sleep_us, Board.emit] at *
    rw [g7, f7]
  · refine ⟨([Event.gpioPut LATCH true, Event.sleepUs 12, Event.gpioPut LATCH false,
        Event.sleepUs 6] ++ loop_events m.board.levels m.board.reads 16) ++ G, ?_, ?_, ?_⟩
    · rw [sleeps_append, sleeps_append, sleeps_loop_events, hGs]
      rfl
    · rw [timerReads_append, timerReads_append, timerReads_loop_events, hGt]
      rfl
    · simp only [main_tick, time_us_32, sleep_us, Board.emit, tick_start, tick_now] at *
      rw [hG, f9, g3, g4, f3, f4]
      simp only [List.append_assoc, List.cons_append, List.nil_append, List.singleton_append]

theorem getLast_tick_shape (xs mid : List Event) (a x y : Event) :
    (xs ++ (a :: (mid ++ [x, y]))).getLast? = some y := by
  have h : xs ++ (a :: (mid ++ [x, y])) = (xs ++ (a :: (mid ++ [x]))) ++ [y] := by simp
  rw [h, List.getLast?_append]
  rfl

/-- The three facts about the log of one iteration of `main` that the
scheduler statements use. -/
theorem main_tick_log {F : Type} (fo : FloatOps F) (m : Machine F) :
    (main_tick fo m).board.trace.getLast?
      = some (Event.sleepUs (tick_sleep (tick_start m.board) (tick_now m.board))) ∧
    sleeps (new_events m.board (main_tick fo m).board)
      = [12, 6, tick_sleep (tick_start m.board) (tick_now m.board)] ∧
    timerReads (new_events m.board (main_tick fo m).board)
      = [tick_start m.board, tick_now m.board] := by
  obtain ⟨-, -, mid, hs, ht, htr⟩ := main_tick_spec fo m
  rw [new_events_append _ _ _ htr]
  refine ⟨?_, ?_, ?_⟩
  · rw [htr]
    exact getLast_tick_shape _ _ _ _ _
  · simp [sleeps, sleeps_append, hs]
  · simp [timerReads, timerReads_append, ht]

theorem tick_sleep_of_elapsed (s n e : Nat) (hel : subU32 n s = e) (he : e ≤ 16666) :
    tick_sleep s n = 16666 - e := by
  unfold tick_sleep
  rw [hel]
  unfold subU32 U32
  omega

theorem subU32_wrapped (s d : Nat) (hd : d ≤ 16666) :
    subU32 ((s + d) % U32) s = d := by
  unfold subU32 U32 at *
  omega

/-- Over budget the `uint` subtraction wraps: for a measured elapsed time `e`
above 16666 the argument of `sleep_us` is `2^32 + 16666 - e`, which is not 0. -/
theorem tick_sleep_over_budget (s n : Nat) (he : 16666 < subU32 n s) :
    tick_sleep s n = 4294983962 - subU32 n s ∧ 0 < tick_sleep s n := by
  have hlt : subU32 n s < U32 := Nat.mod_lt _ (by decide)
  unfold tick_sleep
  generalize subU32 n s = e at he hlt ⊢
  unfold subU32 U32 at *
  omega

/-- C4: in every iteration of the loop of `main` whose measured elapsed time `e` (the
second timer read minus the first, in `uint`) is at most 16666, the call of `sleep_us`
that ends the iteration is passed exactly `16666 - e`; it is 15666 for `e = 1000`
and 0 for `e = 16666`. -/
theorem main_tick_sleep_within_budget {F : Type} (fo : FloatOps F) (m : Machine F) (e : Nat)
    (hel : subU32 (tick_now m.board) (tick_start m.board) = e) (he : e ≤ 16666) :
    timerReads (new_events m.board (main_tick fo m).board)
      = [tick_start m.board, tick_now m.board] ∧
    sleeps (new_events m.board (main_tick fo m).board) = [12, 6, 16666 - e] ∧
    (main_tick fo m).board.trace.getLast? = some (Event.sleepUs (16666 - e)) ∧
    (e = 1000 → (main_tick fo m).board.trace.getLast? = some (Event.sleepUs 15666)) ∧
    (e = 16666 → (main_tick fo m).board.trace.getLast? = some (Event.sleepUs 0)) := by
  obtain ⟨h1, h2, h3⟩ := main_tick_log fo m
  rw [tick_sleep_of_elapsed _ _ e hel he] at h1 h2
  refine ⟨h3, h2, h1, ?_, ?_⟩
  · intro h; rw [h1, h]
  · intro h; rw [h1, h]

/-- Witness of C4: a tick that takes 1000 microseconds sleeps 15666. -/
theorem main_tick_sleep_within_budget_witness :
    subU32 (tick_now demo_machine.board) (tick_start demo_machine.board) = 1000 ∧
    (1000 : Nat) ≤ 16666 ∧
    (main_tick tenths demo_machine).board.trace.getLast? = some (Event.sleepUs 15666) :=
  ⟨by decide, by decide,
   (main_tick_sleep_within_budget tenths demo_machine 1000 (by decide) (by decide)).2.2.1⟩

/-- C10: the elapsed-time computation survives the wraparound of the 32-bit timer.
For every start value `s` and true duration `d` with `d ≤ 16666`, when the timer reads
`(s + d) mod 2^32` at the end of the tick, `now - start` is `d` and the argument
`16666 - (now - start)` of `sleep_us` is exactly `16666 - d`, also when
`s + d ≥ 2^32`. -/
theorem tick_sleep_wraparound (s d : Nat) (hd : d ≤ 16666) :
    subU32 ((s + d) % U32) s = d ∧
    tick_sleep s ((s + d) % U32) = 16666 - d ∧
    (∀ (F : Type) (fo : FloatOps F) (m : Machine F),
      tick_start m.board = s → tick_now m.board = (s + d) % U32 →
      (main_tick fo m).board.trace.getLast? = some (Event.sleepUs (16666 - d))) := by
  have h1 := subU32_wrapped s d hd
  have h2 := tick_sleep_of_elapsed s ((s + d) % U32) d h1 hd
  refine ⟨h1, h2, ?_⟩
  intro F fo m hs' hn'
  rw [(main_tick_log fo m).1, hs', hn', h2]

/-- Witness of C10: the timer reads `2^32 - 1` at the start of the tick and, after
wrapping, 999 at its end; the tick sleeps 15666. -/
theorem tick_sleep_wraparound_witness :
    4294967295 < U32 ∧ (1000 : Nat) ≤ 16666 ∧ U32 ≤ 4294967295 + 1000 ∧
    tick_start wrap_machine.board = 4294967295 ∧
    tick_now wrap_machine.board = 999 ∧
    tick_sleep 4294967295 999 = 15666 ∧
    (main_tick tenths wrap_machine).board.trace.getLast? = some (Event.sleepUs 15666) :=
  ⟨by decide, by decide, by decide, by decide, by decide,
   (tick_sleep_wraparound 4294967295 1000 (by decide)).2.1,
   (tick_sleep_wraparound 4294967295 1000 (by decide)).2.2 Int tenths wrap_machine
     (by decide) (by decide)⟩

/-- C3 (the code at an over-budget tick): when the timer advances by 16667 between
the two reads of a tick, one more than the period, the measured elapsed time is 16667
and `main` passes `2^32 - 1` to `sleep_us`, not 0. -/
theorem main_tick_sleep_over_budget :
    subU32 (tick_now slow_machine.board) (tick_start slow_machine.board) = 16667 ∧
    tick_sleep (tick_start slow_machine.board) (tick_now slow_machine.board) = 4294967295 ∧
    (main_tick tenths slow_machine).board.trace.getLast? = some (Event.sleepUs 4294967295) ∧
    sleeps (new_events slow_machine.board (main_tick tenths slow_machine).board)
      = [12, 6, 4294967295] := by
  obtain ⟨h1, h2, -⟩ := main_tick_log tenths slow_machine
  have hv : tick_sleep (tick_start slow_machine.board) (tick_now slow_machine.board)
      = 4294967295 := by decide
  rw [hv] at h1 h2
  exact ⟨by decide, hv, h1, h2⟩

theorem snes_init_clock (b : Board) :
    (snes_init b).out CLOCK = true ∧ (snes_init b).dir CLOCK = GPIO_OUT := by
  constructor <;>
    simp [snes_init, gpio_init, gpio_set_dir, gpio_put, LATCH, CLOCK, SDATA, GPIO_OUT]

theorem snes_fetch_clock (b : Board) :
    (snes_fetch b).out CLOCK = false ∧ (snes_fetch b).dir CLOCK = b.dir CLOCK := by
  obtain ⟨-, -, -, -, -, hd, ho, -, -⟩ := snes_fetch_spec b
  rw [hd, ho]
  simp

theorem main_run_succ {F : Type} (fo : FloatOps F) (k : Nat) (m : Machine F) :
    main_run fo (k + 1) m = main_tick fo (main_run fo k m) := by
  unfold main_run
  exact Function.iterate_succ_apply' _ _ _

theorem main_run_dir {F : Type} (fo : FloatOps F) (k : Nat) (m : Machine F) :
    (main_run fo k m).board.dir CLOCK = GPIO_OUT := by
  induction k with
  | zero => exact (snes_init_clock _).2
  | succ k ih => rw [main_run_succ, (main_tick_spec fo _).1, ih]

theorem main_run_clock {F : Type} (fo : FloatOps F) (k : Nat) (m : Machine F) :
    (main_run fo k m).board.out CLOCK = decide (k = 0) := by
  cases k with
  | zero => exact (snes_init_clock _).1
  | succ k =>
    rw [main_run_succ, (main_tick_spec fo _).2.1]
    simp

/-- C6 (amended): `snes_init` leaves the clock line an output driven high, so the
clock is high at the entry of the first call of `snes_fetch` in `main`; `snes_fetch`
leaves the clock line driven low when it returns, so the clock is low at the entry
of every later call. -/
theorem clock_level_at_fetch_entry {F : Type} (fo : FloatOps F) (m : Machine F) (b : Board)
    (k : Nat) :
    (snes_init b).dir CLOCK = GPIO_OUT ∧
    (snes_init b).out CLOCK = true ∧
    (snes_fetch b).out CLOCK = false ∧
    (fetch_entry fo k m).dir CLOCK = GPIO_OUT ∧
    (fetch_entry fo 0 m).out CLOCK = true ∧
    (fetch_entry fo (k + 1) m).out CLOCK = false := by
  refine ⟨(snes_init_clock b).2, (snes_init_clock b).1, (snes_fetch_clock b).1, ?_, ?_, ?_⟩
  · exact main_run_dir fo k m
  · exact main_run_clock fo 0 m
  · exact main_run_clock fo (k + 1) m

/-- C6 (as stated) fails: after `snes_init` and one `snes_fetch` the clock line is
low, and it is low at the entry of the second call of `snes_fetch` in `main`. -/
theorem clock_not_idle_high :
    (snes_fetch (snes_init demo_board)).out CLOCK = false ∧
    (fetch_entry tenths 1 demo_machine).out CLOCK = false ∧
    ¬ (∀ k, (fetch_entry tenths k demo_machine).out CLOCK = true) := by
  have h1 : (fetch_entry tenths 1 demo_machine).out CLOCK = false :=
    main_run_clock tenths 1 demo_machine
  refine ⟨(snes_fetch_clock _).1, h1, fun h => ?_⟩
  rw [h 1] at h1
  exact absurd h1 (by decide)

/-! ## Theorems: player movement -/

/-- With enough fuel `bitLengthAux` returns the number of binary digits. -/
theorem bitLengthAux_spec (fuel a : Nat) (h : a ≤ fuel) :
    a < 2 ^ bitLengthAux fuel a ∧ (a ≠ 0 → 2 ^ (bitLengthAux fuel a - 1) ≤ a) := by
  induction fuel generalizing a with
  | zero =>
    have h0 : a = 0 := by omega
    subst h0
    simp [bitLengthAux]
  | succ fuel ih =>
    by_cases h0 : a = 0
    · subst h0
      simp [bitLengthAux]
    · have hle : a / 2 ≤ fuel := by omega
      obtain ⟨h1, h2⟩ := ih (a / 2) hle
      simp only [bitLengthAux, if_neg h0, Nat.add_sub_cancel]
      refine ⟨?_, fun _ => ?_⟩
      · rw [pow_succ]
        omega
      · by_cases h3 : a / 2 = 0
        · have hb : bitLengthAux fuel (a / 2) = 0 := by
            rw [h3]
            cases fuel <;> simp [bitLengthAux]
          rw [hb]
          simp
          omega
        · have h4 := h2 h3
          have h5 : bitLengthAux fuel (a / 2) ≠ 0 := by
            intro hz
            rw [hz] at h1
            simp at h1
            exact h3 h1
          obtain ⟨j, hj⟩ := Nat.exists_eq_succ_of_ne_zero h5
          rw [hj] at h4 ⊢
          simp only [Nat.succ_sub_one] at h4
          rw [Nat.succ_eq_add_one, pow_succ]
          omega

/-- The number of digits `bitLength` returns is the right one. -/
theorem bitLength_spec (a : Nat) :
    a < 2 ^ bitLength a ∧ (a ≠ 0 → 2 ^ (bitLength a - 1) ≤ a) :=
  bitLengthAux_spec a a (Nat.le_refl a)

/-- What `game_iter` does to the player for each content of `controller[4..7]`. -/
theorem game_iter_player {F : Type} (fo : FloatOps F) (m : Machine F) :
    (game_iter fo m).playerx
      = (if m.board.controller 7 ≠ 0
          then fo.addTenth (if m.board.controller 6 ≠ 0 then fo.subTenth m.playerx
            else m.playerx)
          else (if m.board.controller 6 ≠ 0 then fo.subTenth m.playerx else m.playerx)) ∧
    (game_iter fo m).playery
      = (if m.board.controller 5 ≠ 0
          then fo.addTenth (if m.board.controller 4 ≠ 0 then fo.subTenth m.playery
            else m.playery)
          else (if m.board.controller 4 ≠ 0 then fo.subTenth m.playery else m.playery)) :=
  ⟨rfl, rfl⟩

/-- With only Up held, `N` calls of `game_iter` keep `playerx` and apply
`v -= 0.1` to `playery` `N` times; the `controller` array is not touched. -/
theorem game_iter_iterate_up {F : Type} (fo : FloatOps F) (N : Nat) (m : Machine F)
    (hU : m.board.controller 4 ≠ 0) (hD : m.board.controller 5 = 0)
    (hL : m.board.controller 6 = 0) (hR : m.board.controller 7 = 0) :
    ((game_iter fo)^[N] m).board.controller = m.board.controller ∧
    ((game_iter fo)^[N] m).playerx = m.playerx ∧
    ((game_iter fo)^[N] m).playery = fo.subTenth^[N] m.playery := by
  induction N with
  | zero => exact ⟨rfl, rfl, rfl⟩
  | succ N ih =>
    obtain ⟨hc, hx, hy⟩ := ih
    rw [Function.iterate_succ_apply', Function.iterate_succ_apply']
    obtain ⟨gx, gy⟩ := game_iter_player fo ((game_iter fo)^[N] m)
    have gc := (game_iter_spec fo ((game_iter fo)^[N] m)).2.2.2.2.2.2.2.1
    rw [hc] at gx gy gc
    refine ⟨gc, ?_, ?_⟩
    · rw [gx, hL, hR, hx]
      simp
    · rw [gy, if_pos hU, hD, hy]
      simp

/-- Rounding errors of at most `ε` a step add up to at most `N * ε` over `N` steps. -/
theorem drift_bound {F : Type} (f : F → F) (val : F → ℚ) (ε : ℚ) (y : F) (N : Nat)
    (h : ∀ k, k < N → |val (f^[k + 1] y) - (val (f^[k] y) - 1 / 10)| ≤ ε) :
    |val (f^[N] y) - (val y - N / 10)| ≤ N * ε := by
  induction N with
  | zero => simp
  | succ N ih =>
    have h1 := ih (fun k hk => h k (Nat.lt_succ_of_lt hk))
    have h2 := h N (Nat.lt_succ_self N)
    rw [abs_le] at h1 h2 ⊢
    push_cast
    constructor <;> linarith [h1.1, h1.2, h2.1, h2.2]

/-- From 10.0 each of the first ten binary32 subtractions of 0.1 lowers the value
by 104858 units of `2 ^ (-20)`, a little more than 0.1. -/
theorem binary32_from_ten (k : Nat) (hk : k ≤ 10) :
    binary32.subTenth^[k] (10 * 2 ^ 149) = 10 * 2 ^ 149 - (k : Int) * (104858 * 2 ^ 129) := by
  interval_cases k <;> (set_option maxRecDepth 100000 in decide)

/-- From 10.0 each of the first ten binary32 subtractions of 0.1 is within
`2 ^ (-21)` of the exact difference. -/
theorem binary32_step_error_from_ten (k : Nat) (hk : k < 10) :
    |f32_val (binary32.subTenth^[k + 1] (10 * 2 ^ 149))
      - (f32_val (binary32.subTenth^[k] (10 * 2 ^ 149)) - 1 / 10)| ≤ 1 / 2097152 := by
  rw [binary32_from_ten (k + 1) (by omega), binary32_from_ten k (by omega)]
  unfold f32_val
  interval_cases k <;> norm_num [abs_le]

/-- In binary32 subtracting 0.1 from 4194304.0 gives 4194304.0 again. -/
theorem binary32_far_fixed : binary32.subTenth (2 ^ 171) = 2 ^ 171 := by
  set_option maxRecDepth 100000 in decide

end Snes
